import Mathlib

/-
Verification of the ModuleWrapper / Container / Sequential logic of
src/flashlight/fl/nn/modules/Container.cpp, shallowly embedded in Lean.
The embedding follows the .cpp translation unit; declarations that live in
headers outside src (the Variable type, the Module base class, the variant
field of ModuleWrapper, the child-registration path) are modelled from the
specification and are marked as such in their doc comments.
-/

namespace fl

/-- Modelled from the spec: `Variable` is the external autograd tensor type
(declared in flashlight/fl/autograd/Variable.h, not under src). The container
logic never inspects tensor contents and only toggles the gradient-tracking
flag via `setCalcGrad`, so a Variable is embedded as an abstract payload
together with that flag. -/
structure Variable where
  payload : Nat
  calcGrad : Bool
  deriving DecidableEq

/-- Modelled from the spec: `Variable::setCalcGrad`, the external
gradient-tracking switch. -/
def Variable.setCalcGrad (v : Variable) (b : Bool) : Variable :=
  { v with calcGrad := b }

/-- Modelled from the spec: the child `Module` capability contract (base class
and concrete layers are declared outside src). A child exposes `params()`, a
train/eval mode, `forward` over sequences of Variables and `prettyString`;
its behaviour is embedded as explicit state plus a forward function. -/
structure Module where
  params_ : List Variable
  train_ : Bool
  forwardFn : List Variable → List Variable
  prettyString : String

/-- Modelled from the spec: `Module::train` on a child (base behaviour, not
under src): switches the child to training mode and enables gradient tracking
on the child's own parameters. -/
def Module.train (m : Module) : Module :=
  { m with train_ := true, params_ := m.params_.map (fun p => p.setCalcGrad true) }

/-- Modelled from the spec: `Module::eval` on a child, symmetric to
`Module.train`. -/
def Module.eval (m : Module) : Module :=
  { m with train_ := false, params_ := m.params_.map (fun p => p.setCalcGrad false) }

/-- The C++ exception kinds thrown by the code under verification. -/
inductive CppError where
  | outOfRange
  | invalidArgument
  | badVariantAccess
  deriving DecidableEq

/-- Result of a C++ call that does not mutate the receiver: a normal return, a
thrown exception, or undefined behaviour (out-of-bounds vector indexing with
the unchecked subscript operator, dereferencing a null pointer). -/
inductive AccessResult (α : Type) where
  | ok : α → AccessResult α
  | thrown : CppError → AccessResult α
  | ub : AccessResult α
  deriving DecidableEq

/-- Result of a C++ call that may mutate the receiver: on a normal return the
new state, on a thrown exception the state left behind at the moment the
exception escapes, or undefined behaviour. -/
inductive MutResult (σ : Type) where
  | ok : σ → MutResult σ
  | thrown : CppError → σ → MutResult σ
  | ub : MutResult σ

/-- Modelled from the spec: `Module::setParams(var, position)` — the base-class
parameter write (not under src). Per the spec it fails with an out-of-range
condition if the position is invalid, before any write; otherwise it stores
the value at that position of the module's own parameter list. -/
def Module.setParams (m : Module) (v : Variable) (pos : Nat) : MutResult Module :=
  if pos < m.params_.length then
    .ok { m with params_ := m.params_.set pos v }
  else
    .thrown .outOfRange m

/-- Modelled from the spec: the ownership variant held by a `ModuleWrapper`
(the field is declared in Container.h, not under src). The spec's data model
is a variant over exactly one of no module (the default alternative,
`std::monostate`), a uniquely owned module (`std::unique_ptr`), or a shared
module (`std::shared_ptr`), plus the valueless-by-exception error state of
`std::variant`. Pointers are embedded as optional addresses into a module
store; a `none` address is a null pointer. -/
inductive OwnVariant where
  | empty
  | uniquePtr (p : Option Nat)
  | sharedPtr (p : Option Nat)
  | valueless
  deriving DecidableEq

/-- A ModuleWrapper holds exactly its ownership variant. -/
structure ModuleWrapper where
  ptr_ : OwnVariant
  deriving DecidableEq

/-- The module store backing wrapper pointers: heap cells addressed by index.
`Module::clone` (modelled from the spec as returning an owned deep copy)
allocates a fresh cell holding a copy of the cloned module's state. -/
abbrev Store := List Module

/-- `ModuleWrapper::ModuleWrapper(const ModuleWrapper&)` (Container.cpp lines
20-26): a uniquely owned module is cloned into fresh unique ownership; a
shared module is aliased; in every other case the new wrapper's variant is
left default-initialised (empty). The unique branch dereferences the unique
pointer to call `clone` without a null check: a null or dangling unique
pointer is undefined behaviour. -/
def ModuleWrapper.copyCtor (store : Store) (other : ModuleWrapper) :
    AccessResult (ModuleWrapper × Store) :=
  match other.ptr_ with
  | .uniquePtr none => .ub
  | .uniquePtr (some a) =>
    match store.get? a with
    | some m => .ok (⟨.uniquePtr (some store.length)⟩, store ++ [m])
    | none => .ub
  | .sharedPtr p => .ok (⟨.sharedPtr p⟩, store)
  | .empty => .ok (⟨.empty⟩, store)
  | .valueless => .ok (⟨.empty⟩, store)

/-- `ModuleWrapper::operator bool` (lines 55-64): false when valueless; under
either ownership alternative, true iff the held pointer is non-null; false
otherwise (the empty alternative). -/
def ModuleWrapper.opBool (w : ModuleWrapper) : Bool :=
  match w.ptr_ with
  | .valueless => false
  | .uniquePtr p => p.isSome
  | .sharedPtr p => p.isSome
  | .empty => false

/-- `ModuleWrapper::make_shared` (lines 66-75): a valueless wrapper returns a
null shared handle; a uniquely owning wrapper moves its pointer into the
shared alternative; the function then returns the shared alternative with
`std::get`, which on the empty (monostate) alternative throws
`std::bad_variant_access`. The returned pair is (call result, wrapper state
after the call). -/
def ModuleWrapper.make_shared (w : ModuleWrapper) :
    AccessResult (Option Nat) × ModuleWrapper :=
  match w.ptr_ with
  | .valueless => (.ok none, w)
  | .uniquePtr p => (.ok p, ⟨.sharedPtr p⟩)
  | .sharedPtr p => (.ok p, w)
  | .empty => (.thrown .badVariantAccess, w)

/-- The Container state (fields declared in Container.h, per the spec's data
model): children in insertion order, the flat parameter list, the map from
flat parameter position to (child index, local index within that child), and
the train/eval mode flag. Children are embedded by the module their wrapper
dereferences to: every Container member below reaches a child only through
the wrapper's arrow operator. -/
structure Container where
  modules_ : List Module
  params_ : List Variable
  childParamIdx_ : List (Nat × Nat × Nat)
  train_ : Bool

/-- `Container::module(id)` (lines 105-107): returns the child at `id` by
unchecked vector subscript; an invalid index is undefined behaviour, not a
thrown exception. -/
def Container.module (c : Container) (id : Nat) : AccessResult Module :=
  match c.modules_.get? id with
  | some m => .ok m
  | none => .ub

/-- Events recording the side-effecting calls a Container member makes, in
program order: a `setCalcGrad` call on the flat parameter at a position, or a
`train()` / `eval()` call on the child at an index. -/
inductive Event where
  | setGrad (i : Nat) (b : Bool)
  | childTrain (j : Nat)
  | childEval (j : Nat)
  deriving DecidableEq

/-- `Container::train` (lines 113-125): sets the mode flag to training; the
first loop enables gradient tracking on every flat parameter whose position
has no entry in `childParamIdx_` and leaves every other parameter untouched;
the second loop calls `train()` on every child. The returned event list
records the side-effecting calls of the two loops in program order. -/
def Container.train (c : Container) : Container × List Event :=
  let params' := c.params_.enum.map
    (fun p => if (c.childParamIdx_.lookup p.1).isSome then p.2 else p.2.setCalcGrad true)
  let gradEvents := (List.range c.params_.length).filterMap
    (fun i => if (c.childParamIdx_.lookup i).isSome then none
              else some (Event.setGrad i true))
  ({ c with train_ := true, params_ := params',
            modules_ := c.modules_.map Module.train },
    gradEvents ++ (List.range c.modules_.length).map Event.childTrain)

/-- `Container::eval` (lines 127-139): symmetric to `Container.train`, with the
mode flag cleared and gradient tracking disabled on the container-owned flat
parameters, then `eval()` on every child. -/
def Container.eval (c : Container) : Container × List Event :=
  let params' := c.params_.enum.map
    (fun p => if (c.childParamIdx_.lookup p.1).isSome then p.2 else p.2.setCalcGrad false)
  let gradEvents := (List.range c.params_.length).filterMap
    (fun i => if (c.childParamIdx_.lookup i).isSome then none
              else some (Event.setGrad i false))
  ({ c with train_ := false, params_ := params',
            modules_ := c.modules_.map Module.eval },
    gradEvents ++ (List.range c.modules_.length).map Event.childEval)

/-- Modelled from the spec: the base-class `Module::setParams` call made first
by `Container::setParams`; for a Container the base subobject's parameter list
is the flat list `params_`. It fails out-of-range before any write when the
position is invalid. -/
def Container.baseSetParams (c : Container) (v : Variable) (pos : Nat) :
    MutResult Container :=
  if pos < c.params_.length then
    .ok { c with params_ := c.params_.set pos v }
  else
    .thrown .outOfRange c

/-- `Container::setParams` (lines 141-149): first the base-class write into the
flat list; then, if `childParamIdx_` has an entry for the position, the value
is also written through to the mapped child at its local index, the child
being fetched by unchecked vector subscript. -/
def Container.setParams (c : Container) (v : Variable) (pos : Nat) :
    MutResult Container :=
  match Container.baseSetParams c v pos with
  | .thrown e s => .thrown e s
  | .ub => .ub
  | .ok c1 =>
    match c1.childParamIdx_.lookup pos with
    | none => .ok c1
    | some (midx, pidx) =>
      match c1.modules_.get? midx with
      | none => .ub
      | some m =>
        match Module.setParams m v pidx with
        | .thrown e m' => .thrown e { c1 with modules_ := c1.modules_.set midx m' }
        | .ub => .ub
        | .ok m' => .ok { c1 with modules_ := c1.modules_.set midx m' }

/-- `Container::prettyString` (lines 151-162): the pipeline diagram built by
appending one arrow segment per child to " [input", closed with
" -> output]", followed by one line per child with its own pretty-string. -/
def Container.prettyString (c : Container) : String :=
  let s1 := (List.range c.modules_.length).foldl
    (fun s i => s ++ " -> (" ++ toString i ++ ")") " [input"
  let s2 := s1 ++ " -> output]"
  c.modules_.enum.foldl
    (fun s p => s ++ "\n\t(" ++ toString p.1 ++ "): " ++ p.2.prettyString) s2

/-- A Sequential is a Container with no additional state (Container.h per the
spec: is-a Container). -/
abbrev Sequential := Container

/-- `Sequential::forward(const std::vector<Variable>&)` (lines 166-172): feeds
the input sequence through every child's forward in insertion order and
returns the final output sequence unchanged. -/
def Sequential.forward (c : Sequential) (input : List Variable) : List Variable :=
  c.modules_.foldl (fun output m => m.forwardFn output) input

/-- `Sequential::forward(const Variable&)` (lines 174-183): wraps the input
into a one-element sequence, runs the same pipeline, throws
`std::invalid_argument` unless the final output has exactly one element, and
otherwise returns that element. -/
def Sequential.forwardOne (c : Sequential) (input : Variable) : AccessResult Variable :=
  match c.modules_.foldl (fun output m => m.forwardFn output) [input] with
  | [x] => .ok x
  | _ => .thrown .invalidArgument

/-- `Sequential::operator()` (lines 185-187): delegates to the single-Variable
forward. -/
def Sequential.callOp (c : Sequential) (input : Variable) : AccessResult Variable :=
  Sequential.forwardOne c input

/-- `Sequential::prettyString` (lines 189-201): the literal label "Sequential"
followed by the same diagram and child lines as `Container.prettyString`,
rebuilt inline. -/
def Sequential.prettyString (c : Sequential) : String :=
  let s1 := (List.range c.modules_.length).foldl
    (fun s i => s ++ " -> (" ++ toString i ++ ")") ("Sequential" ++ " [input")
  let s2 := s1 ++ " -> output]"
  c.modules_.enum.foldl
    (fun s p => s ++ "\n\t(" ++ toString p.1 ++ "): " ++ p.2.prettyString) s2

/-- `Container::getOrphanedParamsIdxMap` scan step (lines 85-103), with
explicit fuel for the position counter: at a position with a `childParamIdx_`
entry the scan advances by the mapped child's current parameter count
(fetching the child with `modules_.at`, whose failure on a bad child index is
folded into `none` here); at a position with no entry it records
(previous child index, position) and advances by one. `none` also models the
non-terminating run that the C++ loop performs when a mapped child reports
zero parameters. -/
def Container.orphanScan (c : Container) : Nat → Nat → Int → Option (List (Int × Nat))
  | 0, i, _ =>
    if i < c.params_.length then none else some []
  | fuel + 1, i, prevMidx =>
    if i < c.params_.length then
      match c.childParamIdx_.lookup i with
      | some (midx, _pidx) =>
        match c.modules_.get? midx with
        | some m => Container.orphanScan c fuel (i + m.params_.length) (midx : Int)
        | none => none
      | none =>
        (Container.orphanScan c fuel (i + 1) prevMidx).map
          (fun r => (prevMidx, i) :: r)
    else some []

/-- `Container::getOrphanedParamsIdxMap` (lines 85-103): scans the flat list
from position 0 with the previous child index initialised to -1; the entries
are listed in the order the C++ loop emplaces them. -/
def Container.getOrphanedParamsIdxMap (c : Container) : Option (List (Int × Nat)) :=
  Container.orphanScan c c.params_.length 0 (-1)

/-- The empty Container (created empty per the spec's lifecycle; the initial
mode flag is training, the conventional module default named by the spec). -/
def Container.emptyC : Container :=
  { modules_ := [], params_ := [], childParamIdx_ := [], train_ := true }

/-- Modelled from the spec: the child-registration path (`Container::add`,
declared in Container.h, not under src). Adding a child appends its wrapper to
the children, appends the child's parameters to the flat list, and records one
index-map entry per appended parameter mapping the flat position to
(child index, local index). -/
def Container.addChild (c : Container) (m : Module) : Container :=
  { c with
    modules_ := c.modules_ ++ [m],
    params_ := c.params_ ++ m.params_,
    childParamIdx_ := c.childParamIdx_ ++
      (List.range m.params_.length).map
        (fun j => (c.params_.length + j, c.modules_.length, j)) }

/-- Modelled from the spec: adding a parameter directly to the container (not
via a child) appends it to the flat list and records no index-map entry. -/
def Container.addParam (c : Container) (v : Variable) : Container :=
  { c with params_ := c.params_ ++ [v] }

/-- A container built by registering the given children, in order, into the
empty container. -/
def Container.ofChildren (ms : List Module) : Container :=
  ms.foldl Container.addChild Container.emptyC

/-- A container built by registering the given children and then adding the
given parameters directly (outside child registration). -/
def Container.ofChildrenThenParams (ms : List Module) (vs : List Variable) : Container :=
  vs.foldl Container.addParam (Container.ofChildren ms)

/-- The total number of parameters contributed by a list of children. -/
def totParams (ms : List Module) : Nat :=
  (ms.map (fun m => m.params_.length)).sum

/-- The child index the orphan scan has last seen after consuming the blocks
of `ms` starting at child offset `mOff`, having entered with previous index
`prev`: `prev` if there are no children, otherwise the index of the last
child. -/
def lastKey (prev : Int) (mOff : Nat) : List Module → Int
  | [] => prev
  | _ :: rest => ((mOff + rest.length : Nat) : Int)

/-- The index-map entries produced by registering the children `ms` starting
at child offset `mOff` and flat position offset `pOff`. -/
def entriesFrom : Nat → Nat → List Module → List (Nat × Nat × Nat)
  | _, _, [] => []
  | mOff, pOff, m :: rest =>
    (List.range m.params_.length).map (fun j => (pOff + j, mOff, j))
      ++ entriesFrom (mOff + 1) (pOff + m.params_.length) rest

/-- Relational description of the orphan scan of `Container.orphanScan`: from
position `i` with previous child index `prev` it either is done (past the
flat list), consumes a mapped block of positive length, or records an orphan
position and advances by one. -/
inductive Scan (c : Container) : Nat → Int → List (Int × Nat) → Prop where
  | done {i prev} :
      c.params_.length ≤ i →
      Scan c i prev []
  | block {i prev k pidx m r} :
      i < c.params_.length →
      c.childParamIdx_.lookup i = some (k, pidx) →
      c.modules_.get? k = some m →
      0 < m.params_.length →
      Scan c (i + m.params_.length) (k : Int) r →
      Scan c i prev r
  | orphan {i prev r} :
      i < c.params_.length →
      c.childParamIdx_.lookup i = none →
      Scan c (i + 1) prev r →
      Scan c i prev ((prev, i) :: r)

/-- Concatenation of a list of strings, used to state the spec-side shape of
the pretty-printed output. -/
def strConcat : List String → String
  | [] => ""
  | s :: rest => s ++ strConcat rest

/-- One arrow segment of the pipeline diagram, per the spec's format. -/
def specArrowSeg (i : Nat) : String :=
  " -> (" ++ toString i ++ ")"

/-- One child line of the pretty-printed output, per the spec's format. -/
def specChildLine (p : Nat × Module) : String :=
  "\n\t(" ++ toString p.1 ++ "): " ++ p.2.prettyString

/-- The spec's pipeline diagram for `n` children:
" [input -> (0) -> ... -> (n-1) -> output]". -/
def specPipeline (n : Nat) : String :=
  " [input" ++ strConcat ((List.range n).map specArrowSeg) ++ " -> output]"

/-- The spec's child lines: one line per child with its own pretty-string. -/
def specChildLines (ms : List Module) : String :=
  strConcat (ms.enum.map specChildLine)

/-- A concrete Variable used in witnesses. -/
def exV0 : Variable := ⟨0, false⟩

/-- A second concrete Variable used in witnesses. -/
def exV1 : Variable := ⟨1, false⟩

/-- A third concrete Variable used in witnesses. -/
def exV2 : Variable := ⟨2, false⟩

/-- A concrete one-parameter child module used in witnesses. -/
def exM0 : Module := ⟨[exV0], true, fun xs => xs, "M0"⟩

/-- A second concrete one-parameter child module used in witnesses. -/
def exM1 : Module := ⟨[exV1], true, fun xs => xs, "M1"⟩

/-- A concrete container with one registered child (one covered parameter)
and one directly added parameter (one uncovered position), used in
witnesses. -/
def exCont : Container := Container.ofChildrenThenParams [exM0] [exV2]

/-- Helper: a successful list lookup implies the index is in range. -/
theorem get?_some_lt {α : Type} {l : List α} {n : Nat} {a : α}
    (h : l.get? n = some a) : n < l.length := by
  by_contra hc
  rw [List.get?_eq_none.mpr (by omega)] at h
  cases h

/-- C2 counterexample: `make_shared` on the empty (monostate) wrapper reaches
the final `std::get` over the shared alternative and throws
`std::bad_variant_access`; it does not return a null shared handle as the
claim states. -/
theorem make_shared_empty_counterexample :
    (ModuleWrapper.make_shared ⟨OwnVariant.empty⟩).1
        = AccessResult.thrown CppError.badVariantAccess
      ∧ (ModuleWrapper.make_shared ⟨OwnVariant.empty⟩).1 ≠ AccessResult.ok none := by
  decide

/-- C2 (amended): `make_shared` transfers a uniquely held pointer, unchanged,
into the shared alternative and returns it; on an already shared wrapper it
returns the held pointer without mutation; on a valueless wrapper it returns
a null shared handle; on the empty (monostate) wrapper it throws
`std::bad_variant_access`. -/
theorem make_shared_behavior (p : Option Nat) :
    ModuleWrapper.make_shared ⟨OwnVariant.uniquePtr p⟩
        = (AccessResult.ok p, ⟨OwnVariant.sharedPtr p⟩)
      ∧ ModuleWrapper.make_shared ⟨OwnVariant.sharedPtr p⟩
        = (AccessResult.ok p, ⟨OwnVariant.sharedPtr p⟩)
      ∧ ModuleWrapper.make_shared ⟨OwnVariant.empty⟩
        = (AccessResult.thrown CppError.badVariantAccess, ⟨OwnVariant.empty⟩)
      ∧ ModuleWrapper.make_shared ⟨OwnVariant.valueless⟩
        = (AccessResult.ok none, ⟨OwnVariant.valueless⟩) :=
  ⟨rfl, rfl, rfl, rfl⟩

/-- C5: copying a wrapper that uniquely owns a live module clones it — the
copy uniquely owns a fresh cell (a distinct instance) holding the same module
state (equal structure); copying a shared wrapper aliases the identical cell;
copying an empty wrapper yields an empty wrapper. -/
theorem moduleWrapper_copy_semantics (store : Store) (a : Nat) (m : Module)
    (p : Option Nat) (h : store.get? a = some m) :
    ModuleWrapper.copyCtor store ⟨OwnVariant.uniquePtr (some a)⟩
        = AccessResult.ok (⟨OwnVariant.uniquePtr (some store.length)⟩, store ++ [m])
      ∧ (store ++ [m]).get? store.length = some m
      ∧ store.length ≠ a
      ∧ ModuleWrapper.copyCtor store ⟨OwnVariant.sharedPtr p⟩
        = AccessResult.ok (⟨OwnVariant.sharedPtr p⟩, store)
      ∧ ModuleWrapper.copyCtor store ⟨OwnVariant.empty⟩
        = AccessResult.ok (⟨OwnVariant.empty⟩, store) := by
  have ha : a < store.length := get?_some_lt h
  have h' : store[a]? = some m := by
    rw [← List.get?_eq_getElem?]
    exact h
  refine ⟨?_, ?_, by omega, rfl, rfl⟩
  · simp [ModuleWrapper.copyCtor, h']
  · rw [List.get?_eq_getElem?, List.getElem?_append_right (Nat.le_refl _)]
    simp

/-- C5 witness: copying a unique wrapper over a one-cell store allocates the
clone at address 1. -/
theorem moduleWrapper_copy_semantics_witness :
    ModuleWrapper.copyCtor [exM0] ⟨OwnVariant.uniquePtr (some 0)⟩
      = AccessResult.ok (⟨OwnVariant.uniquePtr (some 1)⟩, [exM0, exM0]) :=
  (moduleWrapper_copy_semantics [exM0] 0 exM0 none rfl).1

/-- C10: the copy constructor dereferences the unique pointer with no null
check, so copying a wrapper whose unique alternative holds a null pointer is
undefined behaviour, although that wrapper converts to false — while the
empty (tag-less) wrapper, which also converts to false, copies to an empty
wrapper. -/
theorem moduleWrapper_copy_null_unique (store : Store) :
    ModuleWrapper.copyCtor store ⟨OwnVariant.uniquePtr none⟩ = AccessResult.ub
      ∧ ModuleWrapper.opBool ⟨OwnVariant.uniquePtr none⟩ = false
      ∧ ModuleWrapper.opBool ⟨OwnVariant.empty⟩ = false
      ∧ ModuleWrapper.copyCtor store ⟨OwnVariant.empty⟩
        = AccessResult.ok (⟨OwnVariant.empty⟩, store)
      ∧ (AccessResult.ok (⟨OwnVariant.empty⟩, store)
          : AccessResult (ModuleWrapper × Store)) ≠ AccessResult.ub :=
  ⟨rfl, rfl, rfl, rfl, fun h => nomatch h⟩

/-- C1 counterexample: `Container::module` on an invalid child index performs
an unchecked vector subscript — undefined behaviour — and in particular does
not fail with a propagated out-of-range condition. -/
theorem module_unchecked_counterexample :
    Container.module Container.emptyC 0 = AccessResult.ub
      ∧ Container.module Container.emptyC 0
          ≠ AccessResult.thrown CppError.outOfRange :=
  ⟨rfl, fun h => nomatch h⟩

/-- C1 (amended): `setParams` with an invalid position fails with an
out-of-range condition thrown by the base-class bounds check before any
write, leaving the container unmodified; `module(id)` with an invalid index
is unchecked undefined behaviour rather than a propagated out-of-range
failure, and with a valid index returns the child at that index. -/
theorem setParams_outOfRange_module_unchecked (c : Container) (v : Variable)
    (pos id : Nat) :
    (c.params_.length ≤ pos →
        Container.setParams c v pos = MutResult.thrown CppError.outOfRange c)
      ∧ (c.modules_.length ≤ id → Container.module c id = AccessResult.ub)
      ∧ (∀ m, c.modules_.get? id = some m
          → Container.module c id = AccessResult.ok m) := by
  refine ⟨?_, ?_, ?_⟩
  · intro h
    unfold Container.setParams Container.baseSetParams
    rw [if_neg (by omega)]
  · intro h
    unfold Container.module
    rw [List.get?_eq_none.mpr h]
  · intro m h
    unfold Container.module
    rw [h]

/-- C1 witness: on the empty container, `setParams` at position 0 throws
out-of-range with the container unchanged, and on a one-child container
`module(0)` returns that child. -/
theorem setParams_outOfRange_module_unchecked_witness :
    Container.setParams Container.emptyC exV0 0
        = MutResult.thrown CppError.outOfRange Container.emptyC
      ∧ Container.module (Container.ofChildren [exM0]) 0 = AccessResult.ok exM0 :=
  ⟨(setParams_outOfRange_module_unchecked Container.emptyC exV0 0 0).1
      (Nat.le_refl 0),
    (setParams_outOfRange_module_unchecked
        (Container.ofChildren [exM0]) exV0 0 0).2.2 exM0 rfl⟩

/-- C7: the call operator equals the single-Variable forward; the
single-Variable forward succeeds with value x exactly when the pipeline run
on the one-element sequence [input] yields [x], and throws invalid-argument
exactly when that final output does not have exactly one element. -/
theorem sequential_forward_single (c : Sequential) (v : Variable) :
    Sequential.callOp c v = Sequential.forwardOne c v
      ∧ (∀ x, Sequential.forwardOne c v = AccessResult.ok x
          ↔ Sequential.forward c [v] = [x])
      ∧ (Sequential.forwardOne c v = AccessResult.thrown CppError.invalidArgument
          ↔ (Sequential.forward c [v]).length ≠ 1) := by
  refine ⟨rfl, ?_, ?_⟩
  · intro x
    unfold Sequential.forwardOne Sequential.forward
    cases h : c.modules_.foldl (fun output m => m.forwardFn output) [v] with
    | nil => simp
    | cons y t => cases t <;> simp
  · unfold Sequential.forwardOne Sequential.forward
    cases h : c.modules_.foldl (fun output m => m.forwardFn output) [v] with
    | nil => simp
    | cons y t => cases t <;> simp

/-- C9: a Sequential with no children is the identity pipeline — the sequence
forward returns its input unchanged and the single-Variable forward returns
its input Variable. -/
theorem sequential_empty_identity (c : Sequential) (input : List Variable)
    (v : Variable) (h : c.modules_ = []) :
    Sequential.forward c input = input
      ∧ Sequential.forwardOne c v = AccessResult.ok v := by
  unfold Sequential.forward Sequential.forwardOne
  rw [h]
  exact ⟨rfl, rfl⟩

/-- C9 witness: the empty container's pipeline returns its inputs. -/
theorem sequential_empty_identity_witness :
    Sequential.forward Container.emptyC [exV0, exV1] = [exV0, exV1]
      ∧ Sequential.forwardOne Container.emptyC exV2 = AccessResult.ok exV2 :=
  sequential_empty_identity Container.emptyC [exV0, exV1] exV2 rfl

/-- Helper: folding the arrow-segment append over a list of indices appends
the concatenated spec arrow segments. -/
theorem foldl_arrowSeg (l : List Nat) (s : String) :
    l.foldl (fun s i => s ++ " -> (" ++ toString i ++ ")") s
      = s ++ strConcat (l.map specArrowSeg) := by
  induction l generalizing s with
  | nil => simp [strConcat, String.append_empty]
  | cons a t ih =>
    rw [List.foldl_cons, ih]
    simp [strConcat, specArrowSeg, String.append_assoc]

/-- Helper: folding the child-line append over an indexed child list appends
the concatenated spec child lines. -/
theorem foldl_childLine (l : List (Nat × Module)) (s : String) :
    l.foldl (fun s p => s ++ "\n\t(" ++ toString p.1 ++ "): " ++ p.2.prettyString) s
      = s ++ strConcat (l.map specChildLine) := by
  induction l generalizing s with
  | nil => simp [strConcat, String.append_empty]
  | cons a t ih =>
    rw [List.foldl_cons, ih]
    simp [strConcat, specChildLine, String.append_assoc]

/-- C8: Sequential's pretty-string is the literal label "Sequential" followed
by Container's; both consist of the pipeline diagram
" [input -> (0) -> ... -> (n-1) -> output]" for the container's n children
followed by one line per child showing its own pretty-string; both are pure
functions of the container state. -/
theorem sequential_prettyString_format (c : Sequential) :
    Sequential.prettyString c = "Sequential" ++ Container.prettyString c
      ∧ Container.prettyString c
        = specPipeline c.modules_.length ++ specChildLines c.modules_ := by
  unfold Sequential.prettyString Container.prettyString
  rw [foldl_arrowSeg, foldl_arrowSeg, foldl_childLine, foldl_childLine]
  unfold specPipeline specChildLines
  constructor
  · simp only [String.append_assoc]
  · simp only [String.append_assoc]

/-- Helper: setting a valid position makes that position read back the new
value. -/
theorem get?_set_self {α : Type} (l : List α) (i : Nat) (a : α)
    (h : i < l.length) : (l.set i a).get? i = some a := by
  rw [List.get?_set_eq]
  obtain ⟨b, hb⟩ : ∃ b, l.get? i = some b := by
    cases hx : l.get? i with
    | none => exact absurd (List.get?_eq_none.mp hx) (by omega)
    | some b => exact ⟨b, rfl⟩
  rw [hb]
  rfl

/-- C3: `train()` sets the mode flag to training and `eval()` clears it; each
enables (resp. disables) gradient tracking on exactly the flat parameters
whose position has no entry in the child index map, touching no parameter
covered by the map; each replaces every child by the result of that child's
own `train()` (resp. `eval()`); and the event trace shows all of the
container's own parameter updates happening before the children are
visited. -/
theorem container_train_eval (c : Container) :
    (Container.train c).1.train_ = true
      ∧ (Container.eval c).1.train_ = false
      ∧ (∀ i, i < c.params_.length →
          ((c.childParamIdx_.lookup i).isSome = true →
              (Container.train c).1.params_.get? i = c.params_.get? i
            ∧ (Container.eval c).1.params_.get? i = c.params_.get? i)
          ∧ ((c.childParamIdx_.lookup i).isSome = false →
              (Container.train c).1.params_.get? i
                = (c.params_.get? i).map (fun p => p.setCalcGrad true)
            ∧ (Container.eval c).1.params_.get? i
                = (c.params_.get? i).map (fun p => p.setCalcGrad false)))
      ∧ (Container.train c).1.modules_ = c.modules_.map Module.train
      ∧ (Container.eval c).1.modules_ = c.modules_.map Module.eval
      ∧ (∃ gs, (Container.train c).2
            = gs ++ (List.range c.modules_.length).map Event.childTrain
          ∧ ∀ e ∈ gs, ∃ i, e = Event.setGrad i true)
      ∧ (∃ gs, (Container.eval c).2
            = gs ++ (List.range c.modules_.length).map Event.childEval
          ∧ ∀ e ∈ gs, ∃ i, e = Event.setGrad i false) := by
  refine ⟨rfl, rfl, ?_, rfl, rfl, ?_, ?_⟩
  · intro i hi
    have htr : (Container.train c).1.params_.get? i
        = ((c.params_.get? i).map (fun a => (i, a))).map
            (fun p => if (c.childParamIdx_.lookup p.1).isSome then p.2
                      else p.2.setCalcGrad true) := by
      show (c.params_.enum.map _).get? i = _
      rw [List.get?_map, List.get?_enum]
    have hev : (Container.eval c).1.params_.get? i
        = ((c.params_.get? i).map (fun a => (i, a))).map
            (fun p => if (c.childParamIdx_.lookup p.1).isSome then p.2
                      else p.2.setCalcGrad false) := by
      show (c.params_.enum.map _).get? i = _
      rw [List.get?_map, List.get?_enum]
    constructor
    · intro hs
      rw [htr, hev]
      cases hx : c.params_.get? i with
      | none => exact ⟨rfl, rfl⟩
      | some p => simp [hs]
    · intro hn
      rw [htr, hev]
      cases hx : c.params_.get? i with
      | none => exact ⟨rfl, rfl⟩
      | some p => simp [hn]
  · refine ⟨(List.range c.params_.length).filterMap
        (fun i => if (c.childParamIdx_.lookup i).isSome then none
                  else some (Event.setGrad i true)), rfl, ?_⟩
    intro e he
    obtain ⟨a, _, ha⟩ := List.mem_filterMap.mp he
    by_cases hs : (c.childParamIdx_.lookup a).isSome
    · simp [hs] at ha
    · simp [hs] at ha
      exact ⟨a, ha.symm⟩
  · refine ⟨(List.range c.params_.length).filterMap
        (fun i => if (c.childParamIdx_.lookup i).isSome then none
                  else some (Event.setGrad i false)), rfl, ?_⟩
    intro e he
    obtain ⟨a, _, ha⟩ := List.mem_filterMap.mp he
    by_cases hs : (c.childParamIdx_.lookup a).isSome
    · simp [hs] at ha
    · simp [hs] at ha
      exact ⟨a, ha.symm⟩

/-- C3 witness: on the concrete container with one covered and one uncovered
parameter, `train()` enables gradient tracking on the uncovered flat
parameter and leaves the covered one untouched. -/
theorem container_train_eval_witness :
    (Container.train exCont).1.params_.get? 1
        = some (Variable.setCalcGrad exV2 true)
      ∧ (Container.train exCont).1.params_.get? 0 = some exV0 := by
  have h := container_train_eval exCont
  have h1 := ((h.2.2.1 1 (by decide)).2 (by decide)).1
  have h0 := ((h.2.2.1 0 (by decide)).1 (by decide)).1
  constructor
  · rw [h1, show exCont.params_.get? 1 = some exV2 from rfl]
    rfl
  · rw [h0]
    rfl

/-- C4: at a valid flat position whose index-map entry (if any) is consistent,
`setParams` succeeds; the flat list reads back the new value at that position
and is unchanged elsewhere, the index map and mode flag are unchanged; if the
position is not covered by the index map the children are unchanged, and if
it is covered the mapped child alone is replaced, with the value written at
the mapped local index and that child's other parameters unchanged. -/
theorem container_setParams_writeThrough (c : Container) (v : Variable)
    (pos : Nat) (hpos : pos < c.params_.length)
    (hwf : c.childParamIdx_.lookup pos = none
        ∨ ∃ midx pidx m, c.childParamIdx_.lookup pos = some (midx, pidx)
            ∧ c.modules_.get? midx = some m ∧ pidx < m.params_.length) :
    ∃ c', Container.setParams c v pos = MutResult.ok c'
      ∧ c'.params_.get? pos = some v
      ∧ (∀ j, j ≠ pos → c'.params_.get? j = c.params_.get? j)
      ∧ c'.childParamIdx_ = c.childParamIdx_
      ∧ c'.train_ = c.train_
      ∧ (c.childParamIdx_.lookup pos = none → c'.modules_ = c.modules_)
      ∧ (∀ midx pidx, c.childParamIdx_.lookup pos = some (midx, pidx) →
          ∀ m, c.modules_.get? midx = some m →
            ∃ m', c'.modules_ = c.modules_.set midx m'
              ∧ m'.params_.get? pidx = some v
              ∧ (∀ q, q ≠ pidx → m'.params_.get? q = m.params_.get? q)) := by
  have hbase : Container.baseSetParams c v pos
      = MutResult.ok { c with params_ := c.params_.set pos v } := by
    unfold Container.baseSetParams
    rw [if_pos hpos]
  rcases hwf with hlk | ⟨midx, pidx, m, hlk, hm, hpidx⟩
  · refine ⟨{ c with params_ := c.params_.set pos v }, ?_, ?_, ?_, rfl, rfl, ?_, ?_⟩
    · unfold Container.setParams
      rw [hbase]
      show (match c.childParamIdx_.lookup pos with
        | none => _ | some (midx, pidx) => _) = _
      rw [hlk]
    · exact get?_set_self _ _ _ hpos
    · intro j hj
      exact List.get?_set_ne _ _ (fun hh => hj hh.symm)
    · intro _
      rfl
    · intro midx pidx hlk'
      rw [hlk'] at hlk
      cases hlk
  · refine ⟨{ c with params_ := c.params_.set pos v, modules_ := c.modules_.set midx { m with params_ := m.params_.set pidx v } }, ?_, ?_, ?_, rfl, rfl, ?_, ?_⟩
    · unfold Container.setParams
      rw [hbase]
      simp only [hlk, hm, Module.setParams, if_pos hpidx]
    · exact get?_set_self _ _ _ hpos
    · intro j hj
      exact List.get?_set_ne _ _ (fun hh => hj hh.symm)
    · intro hlk'
      rw [hlk'] at hlk
      cases hlk
    · intro midx' pidx' hlk' m2 hm2
      rw [hlk] at hlk'
      injection hlk' with h12
      injection h12 with hmidx hpidx2
      subst hmidx
      subst hpidx2
      rw [hm] at hm2
      injection hm2 with hm2
      subst hm2
      exact ⟨{ m with params_ := m.params_.set pidx v }, rfl,
        get?_set_self _ _ _ hpidx,
        fun q hq => List.get?_set_ne _ _ (fun hh => hq hh.symm)⟩

/-- C4 witness: on the concrete container, writing at the covered position 0
succeeds, updates the flat entry, and writes through to child 0 at local
index 0. -/
theorem container_setParams_writeThrough_witness :
    ∃ c', Container.setParams exCont exV1 0 = MutResult.ok c'
      ∧ c'.params_.get? 0 = some exV1 := by
  obtain ⟨c', hok, hflat, _⟩ := container_setParams_writeThrough exCont exV1 0
    (by decide) (Or.inr ⟨0, 0, exM0, by decide, rfl, by decide⟩)
  exact ⟨c', hok, hflat⟩

/-- Helper: `totParams` over a cons. -/
theorem totParams_cons (m : Module) (rest : List Module) :
    totParams (m :: rest) = m.params_.length + totParams rest := by
  simp [totParams]

/-- Helper: association-list lookup skips a prefix none of whose keys match. -/
theorem lookup_append_right {β : Type} :
    ∀ (e1 e2 : List (Nat × β)) (i : Nat), (∀ kv ∈ e1, kv.1 ≠ i) →
      List.lookup i (e1 ++ e2) = List.lookup i e2 := by
  intro e1
  induction e1 with
  | nil =>
    intro e2 i _
    rfl
  | cons kv t ih =>
    intro e2 i h
    obtain ⟨k, b⟩ := kv
    have hk : k ≠ i := h (k, b) (List.mem_cons_self _ _)
    have hbeq : (i == k) = false := beq_eq_false_iff_ne.mpr (fun hh => hk hh.symm)
    simp only [List.cons_append, List.lookup, hbeq]
    exact ih e2 i (fun kv hkv => h kv (List.mem_cons_of_mem _ hkv))

/-- Helper: association-list lookup misses entirely when no key matches. -/
theorem lookup_none_of_ne {β : Type} (l : List (Nat × β)) (i : Nat)
    (h : ∀ kv ∈ l, kv.1 ≠ i) : List.lookup i l = none := by
  have := lookup_append_right l [] i h
  rw [List.append_nil] at this
  rw [this]
  rfl

/-- Helper: every key produced by `entriesFrom` lies in the flat-position
block of the children it registers. -/
theorem entriesFrom_key_bounds :
    ∀ (ms : List Module) (mOff pOff : Nat) (kv : Nat × Nat × Nat),
      kv ∈ entriesFrom mOff pOff ms →
      pOff ≤ kv.1 ∧ kv.1 < pOff + totParams ms := by
  intro ms
  induction ms with
  | nil =>
    intro mOff pOff kv h
    cases h
  | cons m rest ih =>
    intro mOff pOff kv h
    rw [totParams_cons]
    rcases List.mem_append.mp h with hb | hr
    · obtain ⟨j, hj, rfl⟩ := List.mem_map.mp hb
      have := List.mem_range.mp hj
      constructor
      · simp
      · simp
        omega
    · have := ih (mOff + 1) (pOff + m.params_.length) kv hr
      omega

/-- Helper: at the first flat position of a child with parameters, the
registered entries map to that child's local index 0. -/
theorem entriesFrom_lookup_head (m : Module) (rest : List Module)
    (mOff pOff : Nat) (h : 0 < m.params_.length) :
    List.lookup pOff (entriesFrom mOff pOff (m :: rest)) = some (mOff, 0) := by
  obtain ⟨k, hk⟩ : ∃ k, m.params_.length = k + 1 := ⟨m.params_.length - 1, by omega⟩
  unfold entriesFrom
  rw [hk, List.range_succ_eq_map]
  simp [List.lookup]

/-- Helper: a run of positions with no index-map entry, reaching the end of
the flat list, scans to the orphan records keyed by the current previous
child index. -/
theorem scan_orphan_run :
    ∀ (n : Nat) (c : Container) (i : Nat) (prev : Int),
      (∀ j, i ≤ j → j < c.params_.length →
          List.lookup j c.childParamIdx_ = none) →
      i + n = c.params_.length →
      Scan c i prev ((List.range n).map (fun j => (prev, i + j))) := by
  intro n
  induction n with
  | zero =>
    intro c i prev _ hlen
    have h : Scan c i prev [] := Scan.done (by omega)
    simpa using h
  | succ k ih =>
    intro c i prev h hlen
    have hi : i < c.params_.length := by omega
    have hlk := h i (Nat.le_refl i) hi
    have hrest := ih c (i + 1) prev (fun j hj hj2 => h j (by omega) hj2) (by omega)
    have hstep := Scan.orphan hi hlk hrest
    have hlist : (List.range (k + 1)).map (fun j => ((prev, i + j) : Int × Nat))
        = (prev, i) :: (List.range k).map (fun j => (prev, i + 1 + j)) := by
      rw [List.range_succ_eq_map, List.map_cons, List.map_map]
      refine congrArg₂ List.cons (by simp) ?_
      refine List.map_congr_left (fun j _ => ?_)
      simp [Function.comp]
      omega
    rw [hlist]
    exact hstep

/-- Helper: consuming the contiguous blocks of registered children advances
the scan across their flat positions, updating the previous child index to
the last child, in continuation style. -/
theorem scan_blocks :
    ∀ (ms : List Module) (c : Container) (mOff pOff : Nat) (prev : Int)
      (r : List (Int × Nat)),
      (∀ m ∈ ms, m.params_ ≠ []) →
      (∀ i, pOff ≤ i →
          List.lookup i c.childParamIdx_
            = List.lookup i (entriesFrom mOff pOff ms)) →
      (∀ dk, c.modules_.get? (mOff + dk) = ms.get? dk) →
      pOff + totParams ms ≤ c.params_.length →
      Scan c (pOff + totParams ms) (lastKey prev mOff ms) r →
      Scan c pOff prev r := by
  intro ms
  induction ms with
  | nil =>
    intro c mOff pOff prev r _ _ _ _ hcont
    simpa [totParams, lastKey] using hcont
  | cons m rest ih =>
    intro c mOff pOff prev r hne h1 h2 h3 hcont
    have hm : 0 < m.params_.length := by
      have hx := hne m (List.mem_cons_self m rest)
      cases hq : m.params_ with
      | nil => exact absurd hq hx
      | cons a t => simp [hq]
    rw [totParams_cons] at h3
    have hpos : pOff < c.params_.length := by omega
    have hlkhead : List.lookup pOff c.childParamIdx_ = some (mOff, 0) := by
      rw [h1 pOff (Nat.le_refl _), entriesFrom_lookup_head m rest mOff pOff hm]
    have hmod0 : c.modules_.get? mOff = some m := h2 0
    refine Scan.block hpos hlkhead hmod0 hm ?_
    · refine ih c (mOff + 1) (pOff + m.params_.length) (mOff : Int) r
        (fun m2 hm2 => hne m2 (List.mem_cons_of_mem _ hm2)) ?_ ?_ (by omega) ?_
      · intro i hi
        rw [h1 i (by omega)]
        show List.lookup i
            ((List.range m.params_.length).map
                (fun j => (pOff + j, mOff, j))
              ++ entriesFrom (mOff + 1) (pOff + m.params_.length) rest) = _
        refine lookup_append_right _ _ i (fun kv hkv => ?_)
        obtain ⟨j, hj, rfl⟩ := List.mem_map.mp hkv
        have := List.mem_range.mp hj
        simp
        omega
      · intro dk
        have hq := h2 (dk + 1)
        rw [show mOff + (dk + 1) = mOff + 1 + dk from by omega] at hq
        simpa using hq
      · have harith : pOff + m.params_.length + totParams rest
            = pOff + (m.params_.length + totParams rest) := by omega
        have hkey : lastKey prev mOff (m :: rest)
            = lastKey (mOff : Int) (mOff + 1) rest := by
          cases rest with
          | nil => simp [lastKey]
          | cons m2 t =>
            show ((mOff + (m2 :: t).length : Nat) : Int)
              = ((mOff + 1 + t.length : Nat) : Int)
            congr 1
            simp
            omega
        rw [harith, ← totParams_cons, ← hkey]
        exact hcont

/-- Helper: the fueled scan computes any result the scan relation derives,
given fuel at least the number of remaining positions. -/
theorem orphanScan_of_scan (c : Container) (i : Nat) (prev : Int)
    (r : List (Int × Nat)) (h : Scan c i prev r) :
    ∀ fuel, c.params_.length - i ≤ fuel →
      Container.orphanScan c fuel i prev = some r := by
  induction h with
  | done hle =>
    intro fuel _
    cases fuel with
    | zero =>
      unfold Container.orphanScan
      rw [if_neg (by omega)]
    | succ k =>
      unfold Container.orphanScan
      rw [if_neg (by omega)]
  | block hlt hlk hmod hp hrec ih =>
    intro fuel hf
    cases fuel with
    | zero => omega
    | succ f =>
      unfold Container.orphanScan
      rw [if_pos hlt]
      simp only [hlk, hmod]
      exact ih f (by omega)
  | orphan hlt hlk hrec ih =>
    intro fuel hf
    cases fuel with
    | zero => omega
    | succ f =>
      unfold Container.orphanScan
      rw [if_pos hlt]
      simp only [hlk]
      rw [ih f (by omega)]
      rfl

/-- Helper: the fields of a container built by registering children into an
accumulator container. -/
theorem ofChildren_fields :
    ∀ (ms : List Module) (c0 : Container),
      (ms.foldl Container.addChild c0).modules_ = c0.modules_ ++ ms
      ∧ (ms.foldl Container.addChild c0).params_
        = c0.params_ ++ (ms.map (fun m => m.params_)).flatten
      ∧ (ms.foldl Container.addChild c0).childParamIdx_
        = c0.childParamIdx_
          ++ entriesFrom c0.modules_.length c0.params_.length ms := by
  intro ms
  induction ms with
  | nil =>
    intro c0
    simp [entriesFrom]
  | cons m rest ih =>
    intro c0
    rw [List.foldl_cons]
    obtain ⟨h1, h2, h3⟩ := ih (Container.addChild c0 m)
    refine ⟨?_, ?_, ?_⟩
    · rw [h1]
      simp [Container.addChild]
    · rw [h2]
      simp [Container.addChild]
    · rw [h3]
      show c0.childParamIdx_
          ++ (List.range m.params_.length).map
              (fun j => (c0.params_.length + j, c0.modules_.length, j))
          ++ entriesFrom (Container.addChild c0 m).modules_.length
              (Container.addChild c0 m).params_.length rest = _
      have hml : (Container.addChild c0 m).modules_.length
          = c0.modules_.length + 1 := by
        simp [Container.addChild]
      have hpl : (Container.addChild c0 m).params_.length
          = c0.params_.length + m.params_.length := by
        simp [Container.addChild]
      rw [hml, hpl]
      show _ = c0.childParamIdx_
        ++ ((List.range m.params_.length).map
              (fun j => (c0.params_.length + j, c0.modules_.length, j))
            ++ entriesFrom (c0.modules_.length + 1)
                (c0.params_.length + m.params_.length) rest)
      rw [List.append_assoc]

/-- Helper: the fields of a container after adding parameters directly. -/
theorem addParams_fields :
    ∀ (vs : List Variable) (c0 : Container),
      (vs.foldl Container.addParam c0).params_ = c0.params_ ++ vs
      ∧ (vs.foldl Container.addParam c0).modules_ = c0.modules_
      ∧ (vs.foldl Container.addParam c0).childParamIdx_ = c0.childParamIdx_ := by
  intro vs
  induction vs with
  | nil =>
    intro c0
    simp
  | cons v rest ih =>
    intro c0
    rw [List.foldl_cons]
    obtain ⟨h1, h2, h3⟩ := ih (Container.addParam c0 v)
    refine ⟨?_, ?_, ?_⟩
    · rw [h1]
      simp [Container.addParam]
    · rw [h2]
      rfl
    · rw [h3]
      rfl

/-- C6: on a container built by registering children (each with at least one
parameter) and then adding `vs` parameters directly, the orphan scan consumes
each registered child's contiguous block in one step and records exactly the
directly added positions, each keyed by the most recently seen child index —
the last registered child, or -1 when there are no children; in particular,
when every parameter was added via child registration the returned multimap
is empty. -/
theorem orphanedParams_characterization (ms : List Module) (vs : List Variable)
    (hne : ∀ m ∈ ms, m.params_ ≠ []) :
    Container.getOrphanedParamsIdxMap (Container.ofChildrenThenParams ms vs)
        = some ((List.range vs.length).map
            (fun j => (lastKey (-1) 0 ms, totParams ms + j)))
      ∧ Container.getOrphanedParamsIdxMap (Container.ofChildren ms) = some [] := by
  have main : ∀ vs2 : List Variable,
      Container.getOrphanedParamsIdxMap (Container.ofChildrenThenParams ms vs2)
        = some ((List.range vs2.length).map
            (fun j => (lastKey (-1) 0 ms, totParams ms + j))) := by
    intro vs2
    set C := Container.ofChildrenThenParams ms vs2 with hC
    obtain ⟨hp0, hm0, hi0⟩ := addParams_fields vs2 (Container.ofChildren ms)
    obtain ⟨hm1, hp1, hi1⟩ := ofChildren_fields ms Container.emptyC
    have hmods : C.modules_ = ms := by
      rw [hC, Container.ofChildrenThenParams, hm0, Container.ofChildren, hm1]
      rfl
    have hidx : C.childParamIdx_ = entriesFrom 0 0 ms := by
      rw [hC, Container.ofChildrenThenParams, hi0, Container.ofChildren, hi1]
      rfl
    have hparams : C.params_ = (ms.map (fun m => m.params_)).flatten ++ vs2 := by
      rw [hC, Container.ofChildrenThenParams, hp0, Container.ofChildren, hp1]
      rfl
    have hflat : (ms.map (fun m => m.params_)).flatten.length = totParams ms := by
      rw [List.length_flatten, List.map_map]
      rfl
    have hlen : C.params_.length = totParams ms + vs2.length := by
      rw [hparams, List.length_append, hflat]
    have horph : ∀ j, totParams ms ≤ j → j < C.params_.length →
        List.lookup j C.childParamIdx_ = none := by
      intro j hj _
      rw [hidx]
      refine lookup_none_of_ne _ _ (fun kv hkv => ?_)
      have := entriesFrom_key_bounds ms 0 0 kv hkv
      omega
    have hrun : Scan C (totParams ms) (lastKey (-1) 0 ms)
        ((List.range vs2.length).map
          (fun j => (lastKey (-1) 0 ms, totParams ms + j))) :=
      scan_orphan_run vs2.length C (totParams ms) (lastKey (-1) 0 ms) horph
        (by omega)
    have hscan : Scan C 0 (-1)
        ((List.range vs2.length).map
          (fun j => (lastKey (-1) 0 ms, totParams ms + j))) := by
      refine scan_blocks ms C 0 0 (-1) _ hne ?_ ?_ (by omega) ?_
      · intro i _
        rw [hidx]
      · intro dk
        rw [hmods, Nat.zero_add]
      · rw [Nat.zero_add]
        exact hrun
    have := orphanScan_of_scan C 0 (-1) _ hscan C.params_.length (by omega)
    rw [Container.getOrphanedParamsIdxMap]
    exact this
  refine ⟨main vs, ?_⟩
  have h0 := main []
  simpa [Container.ofChildrenThenParams] using h0

/-- C6 witness: two one-parameter children followed by one directly added
parameter produce exactly one orphan record: flat position 2 keyed by the
last child index 1. -/
theorem orphanedParams_characterization_witness :
    Container.getOrphanedParamsIdxMap
        (Container.ofChildrenThenParams [exM0, exM1] [exV2])
      = some [((1 : Int), 2)] := by
  have h := (orphanedParams_characterization [exM0, exM1] [exV2] ?_).1
  · rw [h]
    decide
  · intro m hm
    simp [List.mem_cons] at hm
    rcases hm with rfl | rfl
    · decide
    · decide

end fl
